import Mathlib

/-!
Verification of the data-ingestion-and-aggregation pipeline of
`src/微信好友地域分布图.py`: the CSV loader `load_province_data`, the
aggregator `create_province_map`, and the `__main__` driver.

The script's file I/O is embedded by an explicit `FileInput` value that
records what the runtime delivers to the loader: the path may not exist,
the file may decode into a list of CSV rows, or decoding / reading may
fail partway through, in which case the rows obtained before the failure
are recorded.  Python's text layer decodes lazily while the `csv.reader`
iterates, so a `UnicodeDecodeError` — exactly like any other mid-read
I/O error — can fire after some rows have already been yielded to the
loop; both failure constructors therefore carry the successfully
delivered row prefix.  All printing is abstracted away; the reported
error is retained in the result.
-/

/-- Constant `CSV_FILENAME` of the script. -/
def CSV_FILENAME : String := "我的微信好友信息.csv"

/-- Constant `PROVINCE_COLUMN_INDEX` of the script (column 4, zero-based 3). -/
def PROVINCE_COLUMN_INDEX : Nat := 3

/-- Python's `str.strip()` on the character list of a string: drop leading
and trailing whitespace characters. -/
def pyStrip (s : String) : String :=
  ⟨List.rdropWhile Char.isWhitespace (s.data.dropWhile Char.isWhitespace)⟩

/-- The error conditions `load_province_data` reports (by printing) and the
spec's names for them: missing path, undecodable content, other read
failure. -/
inductive LoadErr
  | NotFoundError
  | DecodeError
  | ReadError
  deriving DecidableEq

/-- What the runtime delivers to `load_province_data` for the given path:
the path does not exist; the whole file decodes into `rows`; decoding
fails after `rows` were yielded (`UnicodeDecodeError` inside the loop —
Python decodes the text stream lazily while `csv.reader` iterates, so the
failure can occur after zero or more rows); or some other I/O failure
interrupts the read after `rows` were yielded. -/
inductive FileInput
  | notFound
  | ok (rows : List (List String))
  | decodeFailure (rows : List (List String))
  | readFailure (rows : List (List String))
  deriving DecidableEq

/-- Result of `load_province_data`: the returned list `provinces` together
with the error it reported, if any. -/
structure LoadResult where
  provinces : List String
  error : Option LoadErr
  deriving DecidableEq

/-- The `for row in reader` loop of `load_province_data`, with the
accumulated `provinces` list made explicit: rows with at most
`column_index` fields are skipped, otherwise the field at `column_index`
is stripped and appended when non-empty. -/
def loadLoop (column_index : Nat) : List (List String) → List String → List String
  | [], provinces => provinces
  | row :: rest, provinces =>
    if column_index < row.length then
      let province := pyStrip (row.getD column_index "")
      if province ≠ "" then loadLoop column_index rest (provinces ++ [province])
      else loadLoop column_index rest provinces
    else loadLoop column_index rest provinces

/-- `load_province_data(filename, column_index)`: the missing-path check
returns `[]` after reporting; otherwise the header row is read and
discarded by `next(reader, None)` and the loop of `loadLoop` runs over
the remaining rows.  The three `except` arms each report their error and
fall through to `return provinces`, so a mid-read failure returns the
rows accumulated from the delivered prefix. -/
def load_province_data (column_index : Nat) (file : FileInput) : LoadResult :=
  match file with
  | .notFound => { provinces := [], error := some .NotFoundError }
  | .ok rows => { provinces := loadLoop column_index rows.tail [], error := none }
  | .decodeFailure rows =>
      { provinces := loadLoop column_index rows.tail [], error := some .DecodeError }
  | .readFailure rows =>
      { provinces := loadLoop column_index rows.tail [], error := some .ReadError }

/-- Modelled from the spec (section 4.1 Loader): for every data row, if the
row has fewer fields than `field_index + 1` it contributes nothing;
otherwise the field at `field_index` is stripped and kept only when the
trimmed value is non-empty, in input order. -/
def loaderSpec (field_index : Nat) (dataRows : List (List String)) : List String :=
  dataRows.filterMap (fun row =>
    if row.length < field_index + 1 then none
    else
      let v := pyStrip (row.getD field_index "")
      if v = "" then none else some v)

/-- The distinct elements of a list in order of first occurrence: the key
order of a Python `Counter` built from the list. -/
def firstOccurrences : List String → List String
  | [] => []
  | x :: rest => x :: (firstOccurrences rest).filter (fun y => y ≠ x)

/-- `Counter(province_list)` as `create_province_map` consumes it via
`list(province_counts.items())`: each distinct label, in first-occurrence
order, paired with its number of occurrences. -/
def province_counts (province_list : List String) : List (String × Nat) :=
  (firstOccurrences province_list).map (fun l => (l, province_list.count l))

/-- The observable shape of the `Map` object `create_province_map` builds:
either the fallback map titled `无有效数据` with no series, or a chart
whose series holds `data_pair` and whose visual-map component is
configured with upper bound `visualmap_max`. -/
inductive MapChart
  | noDataMap
  | chart (data_pair : List (String × Nat)) (visualmap_max : Nat)
  deriving DecidableEq

/-- `max(count for province, count in data_pair) if data_pair else 0`. -/
def max_count (data_pair : List (String × Nat)) : Nat :=
  (data_pair.map Prod.snd).foldl Nat.max 0

/-- `create_province_map(province_list)`: count the labels, turn the counts
into `data_pair`; when empty, return the `无有效数据` fallback map,
otherwise a chart over `data_pair` whose visual map is bounded by
`max_count + 1`. -/
def create_province_map (province_list : List String) : MapChart :=
  let data_pair := province_counts province_list
  if data_pair = [] then .noDataMap
  else .chart data_pair (max_count data_pair + 1)

/-- Outcome of the `__main__` block: either the run prints
`未能加载到省份数据，程序退出。` and stops without building or rendering a
map, or it builds the chart and invokes `render` on it. -/
inductive RunOutcome
  | exitNoData
  | rendered (chart : MapChart)
  deriving DecidableEq

/-- The `__main__` driver: load with `PROVINCE_COLUMN_INDEX`, stop if the
list is empty, otherwise build the map and render it. -/
def main_run (file : FileInput) : RunOutcome :=
  let province_data := (load_province_data PROVINCE_COLUMN_INDEX file).provinces
  if province_data = [] then .exitNoData
  else .rendered (create_province_map province_data)

/-! ## Auxiliary lemmas -/

/-- The loader loop is the accumulator followed by the spec-side
`filterMap` of the remaining rows. -/
theorem loadLoop_eq_append (column_index : Nat) (rows : List (List String))
    (acc : List String) :
    loadLoop column_index rows acc = acc ++ loaderSpec column_index rows := by
  induction rows generalizing acc with
  | nil => simp [loadLoop, loaderSpec]
  | cons row rest ih =>
    simp only [loadLoop, loaderSpec, List.filterMap_cons]
    by_cases hlen : column_index < row.length
    · have hlen2 : ¬ row.length < column_index + 1 := by omega
      by_cases hemp : pyStrip (row.getD column_index "") = ""
      · simp only [hlen, if_true, hemp, ne_eq, not_true_eq_false, if_false, if_neg hlen2]
        exact ih acc
      · simp only [hlen, if_true, ne_eq, hemp, not_false_eq_true, if_neg hlen2, if_pos hemp]
        rw [ih, List.append_assoc]
        simp [loaderSpec, hemp]
    · have hlen2 : row.length < column_index + 1 := by omega
      simp only [hlen, if_false, if_pos hlen2]
      exact ih acc

/-- Membership in `firstOccurrences` is membership in the list. -/
theorem mem_firstOccurrences {y : String} {xs : List String} :
    y ∈ firstOccurrences xs ↔ y ∈ xs := by
  induction xs with
  | nil => simp [firstOccurrences]
  | cons x rest ih =>
    simp only [firstOccurrences, List.mem_cons, List.mem_filter, decide_eq_true_eq, ih]
    constructor
    · rintro (rfl | ⟨hy, _⟩)
      · exact Or.inl rfl
      · exact Or.inr hy
    · rintro (rfl | hy)
      · exact Or.inl rfl
      · by_cases hxy : y = x
        · exact Or.inl hxy
        · exact Or.inr ⟨hy, hxy⟩

/-- `firstOccurrences` has no duplicates. -/
theorem nodup_firstOccurrences (xs : List String) : (firstOccurrences xs).Nodup := by
  induction xs with
  | nil => simp [firstOccurrences]
  | cons x rest ih =>
    refine List.Nodup.cons ?_ (List.Nodup.filter _ ih)
    intro hx
    rcases List.mem_filter.mp hx with ⟨-, hne⟩
    exact (of_decide_eq_true hne) rfl

/-- The counts recorded by `province_counts` add up to the length of the
input list. -/
theorem sum_counts_eq_length (xs : List String) :
    ((firstOccurrences xs).map (fun l => xs.count l)).sum = xs.length := by
  have h1 : ((firstOccurrences xs).toFinset).sum (fun l => xs.count l) =
      ((firstOccurrences xs).map (fun l => xs.count l)).sum :=
    List.sum_toFinset _ (nodup_firstOccurrences xs)
  have h2 : (firstOccurrences xs).toFinset = xs.toFinset := by
    ext a
    simp [mem_firstOccurrences]
  rw [← h1, h2]
  exact List.sum_toFinset_count_eq_length xs

/-- `Nat.max 0 n` is `n`. -/
theorem natMaxZero (n : Nat) : Nat.max 0 n = n := by
  simp [Nat.max_def]

/-- Folding `Nat.max` from an accumulator is the max of the accumulator
and the fold from zero. -/
theorem foldl_max_init (l : List Nat) (a : Nat) :
    l.foldl Nat.max a = Nat.max a (l.foldl Nat.max 0) := by
  induction l generalizing a with
  | nil => simp
  | cons x t ih =>
    simp only [List.foldl_cons]
    rw [ih (Nat.max a x), ih (Nat.max 0 x), natMaxZero]
    exact Nat.max_assoc a x (t.foldl Nat.max 0)

/-- Every member of a list is bounded by its `Nat.max` fold. -/
theorem le_foldl_max {a : Nat} {l : List Nat} (h : a ∈ l) :
    a ≤ l.foldl Nat.max 0 := by
  induction l with
  | nil => cases h
  | cons x t ih =>
    rw [List.foldl_cons, foldl_max_init, natMaxZero]
    rcases List.mem_cons.mp h with rfl | h2
    · exact Nat.le_max_left _ _
    · exact Nat.le_trans (ih h2) (Nat.le_max_right _ _)

/-- The first character of a stripped string is not whitespace. -/
theorem pyStrip_head_not_white (s : String) (c : Char)
    (hc : (pyStrip s).data.head? = some c) : c.isWhitespace = false := by
  have hc2 : (List.rdropWhile Char.isWhitespace
      (s.data.dropWhile Char.isWhitespace)).head? = some c := hc
  obtain ⟨t, ht⟩ :=
    List.rdropWhile_prefix Char.isWhitespace (s.data.dropWhile Char.isWhitespace)
  have hRne : List.rdropWhile Char.isWhitespace
      (s.data.dropWhile Char.isWhitespace) ≠ [] := by
    intro h0
    rw [h0] at hc2
    cases hc2
  have hLhead : (s.data.dropWhile Char.isWhitespace).head? = some c := by
    rw [← ht]
    cases hR : List.rdropWhile Char.isWhitespace
        (s.data.dropWhile Char.isWhitespace) with
    | nil => exact absurd hR hRne
    | cons r R2 =>
      rw [hR] at hc2
      simpa using hc2
  have hLne : s.data.dropWhile Char.isWhitespace ≠ [] := by
    intro h0
    rw [h0] at hLhead
    cases hLhead
  have hhead := List.head_dropWhile_not Char.isWhitespace s.data hLne
  have hceq : (s.data.dropWhile Char.isWhitespace).head hLne = c := by
    have := List.head?_eq_head hLne
    rw [this] at hLhead
    exact Option.some.inj hLhead
  rw [hceq] at hhead
  exact hhead

/-- The last character of a stripped string is not whitespace. -/
theorem pyStrip_last_not_white (s : String) (c : Char)
    (hc : (pyStrip s).data.getLast? = some c) : c.isWhitespace = false := by
  have hc2 : (List.rdropWhile Char.isWhitespace
      (s.data.dropWhile Char.isWhitespace)).getLast? = some c := hc
  have hRne : List.rdropWhile Char.isWhitespace
      (s.data.dropWhile Char.isWhitespace) ≠ [] := by
    intro h0
    rw [h0] at hc2
    cases hc2
  have hlast := List.rdropWhile_last_not Char.isWhitespace
    (s.data.dropWhile Char.isWhitespace) hRne
  have hceq : (List.rdropWhile Char.isWhitespace
      (s.data.dropWhile Char.isWhitespace)).getLast hRne = c := by
    have := List.getLast?_eq_getLast_of_ne_nil hRne
    rw [this] at hc2
    exact Option.some.inj hc2
  rw [hceq] at hlast
  simpa using hlast

/-- Every label produced by the spec-side loader is a non-empty stripped
field of some row. -/
theorem mem_loaderSpec_shape {field_index : Nat} {dataRows : List (List String)}
    {l : String} (h : l ∈ loaderSpec field_index dataRows) :
    l ≠ "" ∧ ∃ row : List String, l = pyStrip (row.getD field_index "") := by
  rcases List.mem_filterMap.mp h with ⟨row, -, hf⟩
  simp only at hf
  by_cases h1 : row.length < field_index + 1
  · rw [if_pos h1] at hf
    cases hf
  · rw [if_neg h1] at hf
    by_cases h2 : pyStrip (row.getD field_index "") = ""
    · rw [if_pos h2] at hf
      cases hf
    · rw [if_neg h2] at hf
      have hlv : l = pyStrip (row.getD field_index "") := (Option.some.inj hf).symm
      refine ⟨?_, row, hlv⟩
      rw [hlv]
      exact h2

/-- The `Nat.max` fold of a list is a member of the list or zero. -/
theorem foldl_max_mem (l : List Nat) :
    l.foldl Nat.max 0 ∈ l ∨ l.foldl Nat.max 0 = 0 := by
  induction l with
  | nil => simp
  | cons x t ih =>
    rw [List.foldl_cons, foldl_max_init, natMaxZero]
    rcases max_choice x (t.foldl Nat.max 0) with hc | hc
    · have hc2 : Nat.max x (t.foldl Nat.max 0) = x := hc
      rw [hc2]
      exact Or.inl (List.mem_cons_self x t)
    · have hc2 : Nat.max x (t.foldl Nat.max 0) = t.foldl Nat.max 0 := hc
      rw [hc2]
      rcases ih with hm | hz
      · exact Or.inl (List.mem_cons_of_mem x hm)
      · exact Or.inr hz

/-- Every pair recorded by `province_counts` is a label of the input with
its occurrence count, and conversely. -/
theorem mem_province_counts {xs : List String} {l : String} {c : Nat} :
    (l, c) ∈ province_counts xs ↔ l ∈ xs ∧ c = xs.count l := by
  constructor
  · intro h
    rcases List.mem_map.mp h with ⟨y, hy, heq⟩
    cases heq
    exact ⟨mem_firstOccurrences.mp hy, rfl⟩
  · rintro ⟨hl, rfl⟩
    exact List.mem_map_of_mem _ (mem_firstOccurrences.mpr hl)

/-! ## Claim theorems -/

/-- Claim C1: for every input file and zero-based field index, the loader
discards the first row unconditionally as a header (whatever its
contents), and each later row contributes its `column_index` field,
stripped, exactly when the row is long enough and the stripped value is
non-empty, in input row order — the `filterMap` of `loaderSpec`. -/
theorem load_ok_header_and_rows (column_index : Nat) (header : List String)
    (dataRows : List (List String)) :
    load_province_data column_index (FileInput.ok (header :: dataRows)) =
      { provinces := loaderSpec column_index dataRows, error := none } := by
  have h0 : load_province_data column_index (FileInput.ok (header :: dataRows)) =
      { provinces := loadLoop column_index dataRows [], error := none } := rfl
  rw [h0, loadLoop_eq_append, List.nil_append]

/-- Claim C2: for every non-empty label list, `create_province_map` builds
a chart whose pairs are exactly the label-count entries of the frequency
table — nothing synthesized, nothing dropped — and whose visual-map bound
is the maximum count plus the presentation margin of one. -/
theorem create_province_map_pairs_and_bound (province_list : List String)
    (h : province_list ≠ []) :
    ∃ dp mc,
      create_province_map province_list = MapChart.chart dp (mc + 1) ∧
      (∀ l c, (l, c) ∈ dp ↔ l ∈ province_list ∧ c = province_list.count l) ∧
      (∃ l, l ∈ province_list ∧ province_list.count l = mc) ∧
      (∀ l, province_list.count l ≤ mc) := by
  obtain ⟨x, rest, rfl⟩ : ∃ x rest, province_list = x :: rest := by
    cases province_list with
    | nil => exact absurd rfl h
    | cons x rest => exact ⟨x, rest, rfl⟩
  have hdp_ne : province_counts (x :: rest) ≠ [] := by
    simp [province_counts, firstOccurrences]
  refine ⟨province_counts (x :: rest), max_count (province_counts (x :: rest)),
    ?_, ?_, ?_, ?_⟩
  · simp only [create_province_map]
    rw [if_neg hdp_ne]
  · intro l c
    exact mem_province_counts
  · rcases foldl_max_mem ((province_counts (x :: rest)).map Prod.snd) with hm | hz
    · rcases List.mem_map.mp hm with ⟨p, hp, hsnd⟩
      obtain ⟨l, c⟩ := p
      rcases mem_province_counts.mp hp with ⟨hl, rfl⟩
      exact ⟨l, hl, hsnd⟩
    · exfalso
      have hx : x ∈ x :: rest := List.mem_cons_self x rest
      have hmem : (x, (x :: rest).count x) ∈ province_counts (x :: rest) :=
        mem_province_counts.mpr ⟨hx, rfl⟩
      have hsnd : (x :: rest).count x ∈ (province_counts (x :: rest)).map Prod.snd :=
        List.mem_map_of_mem Prod.snd hmem
      have hle := le_foldl_max hsnd
      have hpos : 0 < (x :: rest).count x := List.count_pos_iff.mpr hx
      omega
  · intro l
    by_cases hl : l ∈ x :: rest
    · have hmem : (l, (x :: rest).count l) ∈ province_counts (x :: rest) :=
        mem_province_counts.mpr ⟨hl, rfl⟩
      have hsnd : (x :: rest).count l ∈ (province_counts (x :: rest)).map Prod.snd :=
        List.mem_map_of_mem Prod.snd hmem
      exact le_foldl_max hsnd
    · rw [List.count_eq_zero_of_not_mem hl]
      exact Nat.zero_le _

/-- Witness for C2 at the concrete list `["京","沪","京"]`. -/
theorem create_province_map_pairs_and_bound_witness :
    ∃ dp mc,
      create_province_map ["京", "沪", "京"] = MapChart.chart dp (mc + 1) ∧
      (∀ l c, (l, c) ∈ dp ↔ l ∈ ["京", "沪", "京"] ∧ c = (["京", "沪", "京"] : List String).count l) ∧
      (∃ l, l ∈ ["京", "沪", "京"] ∧ (["京", "沪", "京"] : List String).count l = mc) ∧
      (∀ l, (["京", "沪", "京"] : List String).count l ≤ mc) :=
  create_province_map_pairs_and_bound ["京", "沪", "京"] (by decide)

/-- Claim C3 counterexample: a decode failure that strikes after the
header and one data row have already been decoded.  The loader reports
`DecodeError` but returns the partial sequence `["京"]`, not the empty
sequence the claim asserts. -/
theorem load_decodeFailure_counterexample :
    (load_province_data 0 (FileInput.decodeFailure [["h"], ["京"]])).error =
        some LoadErr.DecodeError ∧
      (load_province_data 0 (FileInput.decodeFailure [["h"], ["京"]])).provinces ≠ [] := by
  decide

/-- Claim C3 (amended): on a decode failure the loader reports
`DecodeError` and returns the sequence accumulated from the rows decoded
before the failure — the `except UnicodeDecodeError` arm falls through to
`return provinces` exactly like the generic read-error arm — which is
empty only when the failure precedes the first contributing data row. -/
theorem load_decodeFailure_partial (column_index : Nat)
    (rows : List (List String)) :
    load_province_data column_index (FileInput.decodeFailure rows) =
      { provinces := loaderSpec column_index rows.tail,
        error := some LoadErr.DecodeError } := by
  have h0 : load_province_data column_index (FileInput.decodeFailure rows) =
      { provinces := loadLoop column_index rows.tail [],
        error := some LoadErr.DecodeError } := rfl
  rw [h0, loadLoop_eq_append, List.nil_append]

/-- Claim C4: an I/O failure other than not-found or decode partway
through the read loop is caught, reported as `ReadError`, and the loader
returns exactly the labels accumulated from the rows read before the
failure (empty when the failure precedes any data row); the error is a
reported value, never a propagated exception. -/
theorem load_readFailure_partial (column_index : Nat)
    (rows : List (List String)) :
    load_province_data column_index (FileInput.readFailure rows) =
      { provinces := loaderSpec column_index rows.tail,
        error := some LoadErr.ReadError } := by
  have h0 : load_province_data column_index (FileInput.readFailure rows) =
      { provinces := loadLoop column_index rows.tail [],
        error := some LoadErr.ReadError } := rfl
  rw [h0, loadLoop_eq_append, List.nil_append]

/-- Claim C5: on a missing path the loader reports `NotFoundError` and
returns the empty sequence, and the run with that input stops at the
no-data exit without ever invoking the renderer. -/
theorem load_notFound_no_render (column_index : Nat) :
    load_province_data column_index FileInput.notFound =
        { provinces := [], error := some LoadErr.NotFoundError } ∧
      main_run FileInput.notFound = RunOutcome.exitNoData :=
  ⟨rfl, rfl⟩

/-- Claim C6: whenever the loaded label sequence is empty, the run takes
the terminal no-data branch (the `未能加载到省份数据` message) and the
rendering collaborator is never invoked. -/
theorem main_run_empty_no_render (file : FileInput)
    (h : (load_province_data PROVINCE_COLUMN_INDEX file).provinces = []) :
    main_run file = RunOutcome.exitNoData := by
  simp only [main_run]
  rw [h]
  simp

/-- Witness for C6 at the empty file. -/
theorem main_run_empty_no_render_witness :
    (load_province_data PROVINCE_COLUMN_INDEX (FileInput.ok [])).provinces = [] ∧
      main_run (FileInput.ok []) = RunOutcome.exitNoData :=
  ⟨by decide, main_run_empty_no_render (FileInput.ok []) (by decide)⟩

/-- Claim C7: every label the loader returns, for any input file and field
index, is non-empty and carries no leading or trailing whitespace
character. -/
theorem load_labels_trimmed_nonempty (column_index : Nat) (file : FileInput)
    (l : String) (h : l ∈ (load_province_data column_index file).provinces) :
    l ≠ "" ∧ (∀ c, l.data.head? = some c → c.isWhitespace = false) ∧
      (∀ c, l.data.getLast? = some c → c.isWhitespace = false) := by
  have hshape : l ≠ "" ∧ ∃ row : List String,
      l = pyStrip (row.getD column_index "") := by
    cases file with
    | notFound => cases h
    | ok rows =>
        rw [show (load_province_data column_index (FileInput.ok rows)).provinces =
          loadLoop column_index rows.tail [] from rfl, loadLoop_eq_append,
          List.nil_append] at h
        exact mem_loaderSpec_shape h
    | decodeFailure rows =>
        rw [show (load_province_data column_index
            (FileInput.decodeFailure rows)).provinces =
          loadLoop column_index rows.tail [] from rfl, loadLoop_eq_append,
          List.nil_append] at h
        exact mem_loaderSpec_shape h
    | readFailure rows =>
        rw [show (load_province_data column_index
            (FileInput.readFailure rows)).provinces =
          loadLoop column_index rows.tail [] from rfl, loadLoop_eq_append,
          List.nil_append] at h
        exact mem_loaderSpec_shape h
  obtain ⟨hne, row, hl⟩ := hshape
  subst hl
  exact ⟨hne, fun c hc => pyStrip_head_not_white _ c hc,
    fun c hc => pyStrip_last_not_white _ c hc⟩

/-- Witness for C7: the label `京` loaded from a row whose field carries
surrounding spaces. -/
theorem load_labels_trimmed_nonempty_witness :
    "京" ∈ (load_province_data 0 (FileInput.ok [["h"], [" 京 "]])).provinces ∧
      ("京" ≠ "" ∧
        (∀ c, ("京" : String).data.head? = some c → c.isWhitespace = false) ∧
        (∀ c, ("京" : String).data.getLast? = some c → c.isWhitespace = false)) :=
  ⟨by decide, load_labels_trimmed_nonempty 0 (FileInput.ok [["h"], [" 京 "]]) "京"
    (by decide)⟩

/-- Claim C8: the round-trip scenario.  Header `["省份","X"]` with rows
`["京","A"], ["沪","B"], ["京","C"]` at field index 0 loads to
`["京","沪","京"]`, and aggregating that list yields exactly the pairs
`("京", 2)` and `("沪", 1)` with a scale bound of 2 (the chart's
visual-map bound being 2 + 1). -/
theorem round_trip_scenario :
    load_province_data 0
        (FileInput.ok [["省份", "X"], ["京", "A"], ["沪", "B"], ["京", "C"]]) =
      { provinces := ["京", "沪", "京"], error := none } ∧
    create_province_map ["京", "沪", "京"] =
      MapChart.chart [("京", 2), ("沪", 1)] (2 + 1) := by
  decide

/-- Claim C9: the frequency table underlying `create_province_map` has key
set equal to the distinct labels of the input, every count at least one,
and counts summing to the input length. -/
theorem province_counts_invariants (xs : List String) :
    (∀ l, (∃ c, (l, c) ∈ province_counts xs) ↔ l ∈ xs) ∧
    (∀ l c, (l, c) ∈ province_counts xs → 1 ≤ c) ∧
    ((province_counts xs).map Prod.snd).sum = xs.length := by
  refine ⟨?_, ?_, ?_⟩
  · intro l
    constructor
    · rintro ⟨c, hc⟩
      exact (mem_province_counts.mp hc).1
    · intro hl
      exact ⟨xs.count l, mem_province_counts.mpr ⟨hl, rfl⟩⟩
  · intro l c hc
    rcases mem_province_counts.mp hc with ⟨hl, rfl⟩
    exact List.count_pos_iff.mpr hl
  · rw [province_counts, List.map_map]
    exact sum_counts_eq_length xs

/-- Claim C10: `load_province_data` is total from the caller's point of
view — every possible file input, including all failure modes, produces a
`LoadResult` value, and the reported error is absent exactly on a
successful read; no case escapes as an exception. -/
theorem load_total_error_iff (column_index : Nat) (file : FileInput) :
    (load_province_data column_index file).error = none ↔
      ∃ rows, file = FileInput.ok rows := by
  cases file with
  | notFound => simp [load_province_data]
  | ok rows => exact ⟨fun _ => ⟨rows, rfl⟩, fun _ => rfl⟩
  | decodeFailure rows => simp [load_province_data]
  | readFailure rows => simp [load_province_data]
